import Mathlib

/-!
Verification development for the fantacon-2d engine core: a shallow
embedding of `IndexedPixelBuffer` (engine/src/IndexedPixelBuffer.cpp) and of
the `Mesh3D` transform/projection/culling/shading pipeline
(engine/src/Mesh3D.cpp), with theorems settling the specification claims.

Modelling conventions:
* C++ `int` is embedded as `ℤ`, `uint8_t` pixel indices and channels as `ℕ`
  (with `≤ 255` side conditions where a claim needs them), `size_t`-valued
  lengths as `ℕ`.
* C++ `float` arithmetic is embedded as exact arithmetic: `ℚ` where the code
  only adds/multiplies/divides (triangle scanline interpolation), `ℝ` where
  the code calls `sqrt`/`sin`/`cos` (the 3-D pipeline).  Float literals such
  as `0.67f` are embedded as the corresponding rationals.
* `static_cast<int>(f)` truncates toward zero; it is embedded as `ratTrunc` /
  `realTrunc` below.
-/

namespace Engine

/-- 4-channel 8-bit color (struct Color in Types.h); channels are modelled
as `ℕ`, genuine colors satisfy `r,g,b,a ≤ 255`. -/
structure Color where
  r : ℕ
  g : ℕ
  b : ℕ
  a : ℕ
  deriving DecidableEq, Repr

instance : Inhabited Color := ⟨⟨255, 255, 255, 255⟩⟩

/-- State of an `IndexedPixelBuffer`: dimensions, row-major pixel indices,
256-entry palette and the dirty flags (including the combined `dirty_`
flag used by the SDL upload path). -/
structure IndexedPixelBuffer where
  width : ℤ
  height : ℤ
  pixels : List ℕ
  palette : List Color
  pixelsDirty : Bool
  paletteDirty : Bool
  dirty : Bool
  deriving DecidableEq, Repr

/-- Constructor `IndexedPixelBuffer(width, height)`: `width*height` pixels
all 0, default grayscale palette `(i,i,i,255)`, all dirty flags start true
(member initializers in IndexedPixelBuffer.h). -/
def mkIndexedPixelBuffer (w h : ℤ) : IndexedPixelBuffer :=
  { width := w
    height := h
    pixels := List.replicate (w * h).toNat 0
    palette := (List.range 256).map (fun i => ⟨i, i, i, 255⟩)
    pixelsDirty := true
    paletteDirty := true
    dirty := true }

/-- In-bounds test used by `setPixel`/`getPixel` (the code rejects
`x < 0 || x >= width_ || y < 0 || y >= height_`). -/
def inBounds (b : IndexedPixelBuffer) (x y : ℤ) : Prop :=
  0 ≤ x ∧ x < b.width ∧ 0 ≤ y ∧ y < b.height

instance (b : IndexedPixelBuffer) (x y : ℤ) : Decidable (inBounds b x y) := by
  unfold inBounds; infer_instance

/-- `markPixelsDirty()` sets both `pixelsDirty_` and `dirty_`. -/
def markPixelsDirty (b : IndexedPixelBuffer) : IndexedPixelBuffer :=
  { b with pixelsDirty := true, dirty := true }

/-- `markPaletteDirty()` sets both `paletteDirty_` and `dirty_`. -/
def markPaletteDirty (b : IndexedPixelBuffer) : IndexedPixelBuffer :=
  { b with paletteDirty := true, dirty := true }

/-- `setPixel(x, y, paletteIndex)`: out-of-bounds writes return without
touching anything; in-bounds writes store the index and mark pixels dirty. -/
def setPixel (b : IndexedPixelBuffer) (x y : ℤ) (paletteIndex : ℕ) :
    IndexedPixelBuffer :=
  if inBounds b x y then
    markPixelsDirty
      { b with pixels := b.pixels.set (y * b.width + x).toNat paletteIndex }
  else b

/-- `getPixel(x, y)`: out-of-bounds reads return 0. -/
def getPixel (b : IndexedPixelBuffer) (x y : ℤ) : ℕ :=
  if inBounds b x y then b.pixels.getD (y * b.width + x).toNat 0
  else 0

/-- `setPaletteEntry(index, color)`: writes one palette slot and marks
the palette dirty. -/
def setPaletteEntry (b : IndexedPixelBuffer) (index : ℕ) (color : Color) :
    IndexedPixelBuffer :=
  markPaletteDirty { b with palette := b.palette.set index color }

/-- `setPalette(const std::array<Color,256>&)`: replaces the whole palette
and marks it dirty. -/
def setPalette (b : IndexedPixelBuffer) (palette : List Color) :
    IndexedPixelBuffer :=
  markPaletteDirty { b with palette := palette }

/-- Truncation toward zero, the semantics of C++ `static_cast<int>` on a
rational float value. -/
def ratTrunc (q : ℚ) : ℤ :=
  if 0 ≤ q then ⌊q⌋ else ⌈q⌉

/-- The scanline filler local to `fillTriangle`: swaps the endpoints if
needed and writes the inclusive span through `setPixel`. -/
def fillScanline (b : IndexedPixelBuffer) (paletteIndex : ℕ)
    (y xStart xEnd : ℤ) : IndexedPixelBuffer :=
  let lo := min xStart xEnd
  let hi := max xStart xEnd
  (List.range (hi - lo + 1).toNat).foldl
    (fun acc k => setPixel acc (lo + (k : ℤ)) y paletteIndex) b

/-- `fillTriangle(x0,y0,x1,y1,x2,y2,index)`: sorts the vertices by Y with
three conditional swaps, returns immediately when `y0 == y2` (all three on
one horizontal line), otherwise interpolates the long edge and the active
short edge per scanline and fills the span. -/
def fillTriangle (b : IndexedPixelBuffer) (x0 y0 x1 y1 x2 y2 : ℤ)
    (paletteIndex : ℕ) : IndexedPixelBuffer :=
  -- sort vertices so that y0 ≤ y1 ≤ y2
  let s1 := if y1 < y0 then (x1, y1, x0, y0, x2, y2) else (x0, y0, x1, y1, x2, y2)
  let (x0, y0, x1, y1, x2, y2) := s1
  let s2 := if y2 < y0 then (x2, y2, x1, y1, x0, y0) else (x0, y0, x1, y1, x2, y2)
  let (x0, y0, x1, y1, x2, y2) := s2
  let s3 := if y2 < y1 then (x0, y0, x2, y2, x1, y1) else (x0, y0, x1, y1, x2, y2)
  let (x0, y0, x1, y1, x2, y2) := s3
  if y0 = y2 then b
  else
    (List.range (y2 - y0 + 1).toNat).foldl
      (fun acc k =>
        let y := y0 + (k : ℤ)
        let xa : ℤ :=
          if y0 < y2 then
            ratTrunc ((x0 : ℚ) + ((y - y0 : ℤ) : ℚ) / ((y2 - y0 : ℤ) : ℚ) * ((x2 - x0 : ℤ) : ℚ))
          else x0
        let xb : ℤ :=
          if y < y1 then
            if y0 < y1 then
              ratTrunc ((x0 : ℚ) + ((y - y0 : ℤ) : ℚ) / ((y1 - y0 : ℤ) : ℚ) * ((x1 - x0 : ℤ) : ℚ))
            else x0
          else
            if y1 < y2 then
              ratTrunc ((x1 : ℚ) + ((y - y1 : ℤ) : ℚ) / ((y2 - y1 : ℤ) : ℚ) * ((x2 - x1 : ℤ) : ℚ))
            else x1
        fillScanline acc paletteIndex y xa xb)
      b

/-- One iteration step of Bresenham; the fuel passed by `drawLine` covers
the loop's exact step count (`|dx| + |dy|` steps plus the final pixel), so
the fuel can never run out on the loop the code executes. -/
def drawLineAux (paletteIndex : ℕ) (x1 y1 dx dy sx sy : ℤ) :
    ℕ → IndexedPixelBuffer → ℤ → ℤ → ℤ → IndexedPixelBuffer
  | 0, b, _, _, _ => b
  | fuel + 1, b, x0, y0, err =>
    let b := setPixel b x0 y0 paletteIndex
    if x0 = x1 ∧ y0 = y1 then b
    else
      let e2 := 2 * err
      let err := if e2 > -dy then err - dy else err
      let x0 := if e2 > -dy then x0 + sx else x0
      let err := if e2 < dx then err + dx else err
      let y0 := if e2 < dx then y0 + sy else y0
      drawLineAux paletteIndex x1 y1 dx dy sx sy fuel b x0 y0 err

/-- `drawLine(x0,y0,x1,y1,index)`: integer Bresenham, both endpoints
inclusive, every stepped pixel goes through `setPixel`. -/
def drawLine (b : IndexedPixelBuffer) (x0 y0 x1 y1 : ℤ) (paletteIndex : ℕ) :
    IndexedPixelBuffer :=
  let dx := |x1 - x0|
  let dy := |y1 - y0|
  let sx : ℤ := if x0 < x1 then 1 else -1
  let sy : ℤ := if y0 < y1 then 1 else -1
  drawLineAux paletteIndex x1 y1 dx dy sx sy (dx + dy + 1).toNat b x0 y0 (dx - dy)

/-! Median-cut quantization (the anonymous-namespace helpers `ColorBox`,
`findNearestPaletteIndex` and the quantization loop inside
`IndexedPixelBuffer::loadFromFile`).  A box is its list of member colors. -/

/-- The per-channel running `(min, max)` fold of `ColorBox::computeRange`,
with the code's start values `minR = 255, maxR = 0`. -/
def foldMinMax (f : Color → ℕ) (cs : List Color) : ℕ × ℕ :=
  cs.foldl (fun mm c => (min mm.1 (f c), max mm.2 (f c))) (255, 0)

/-- One channel's `max - min` (computed in `int`, hence `ℤ`). -/
def channelRange (f : Color → ℕ) (cs : List Color) : ℤ :=
  ((foldMinMax f cs).2 : ℤ) - ((foldMinMax f cs).1 : ℤ)

/-- `ColorBox::computeRange`: `(0,0,0)` for an empty box, otherwise the
per-channel `max - min` triples. -/
def computeRange (cs : List Color) : ℤ × ℤ × ℤ :=
  if cs = [] then (0, 0, 0)
  else
    (channelRange (fun c => c.r) cs, channelRange (fun c => c.g) cs,
      channelRange (fun c => c.b) cs)

/-- `rRange + gRange + bRange`, the box-selection key of the split loop. -/
def totalRange (cs : List Color) : ℤ :=
  (computeRange cs).1 + (computeRange cs).2.1 + (computeRange cs).2.2

/-- `ColorBox::getAverageColor`: `(0,0,0,255)` for an empty box, otherwise
the per-channel mean (integer division), alpha included. -/
def averageColor (cs : List Color) : Color :=
  if cs = [] then ⟨0, 0, 0, 255⟩
  else
    ⟨(cs.map (fun c => c.r)).sum / cs.length,
      (cs.map (fun c => c.g)).sum / cs.length,
      (cs.map (fun c => c.b)).sum / cs.length,
      (cs.map (fun c => c.a)).sum / cs.length⟩

/-- Insertion of one color into a channel-sorted list. -/
def insertSorted (f : Color → ℕ) (c : Color) : List Color → List Color
  | [] => [c]
  | d :: ds => if f c ≤ f d then c :: d :: ds else d :: insertSorted f c ds

/-- Sorting a box along one channel.  The code calls `std::sort` with the
strict comparator `a.ch < b.ch`, whose order on equal keys is unspecified;
insertion sort realizes one legal outcome of that call. -/
def sortByChannel (f : Color → ℕ) : List Color → List Color
  | [] => []
  | c :: cs => insertSorted f c (sortByChannel f cs)

/-- The scan for the box with the largest total range: index and range
start at `(0, 0)` and improve on strict `>`. -/
def pickLargest (boxes : List (List Color)) : ℕ × ℤ :=
  (List.range boxes.length).foldl
    (fun best i =>
      let t := totalRange (boxes.getD i [])
      if t > best.2 then (i, t) else best)
    (0, 0)

/-- The partial fold of `pickLargest` over the first `n` box indices, for
reasoning about the scan. -/
def pickFold (boxes : List (List Color)) (n : ℕ) : ℕ × ℤ :=
  (List.range n).foldl
    (fun best i =>
      let t := totalRange (boxes.getD i [])
      if t > best.2 then (i, t) else best)
    (0, 0)

/-- Sorting the chosen box along its longest axis (`rRange >= gRange &&
rRange >= bRange` picks red, else `gRange >= bRange` picks green, else
blue). -/
def sortBox (cs : List Color) : List Color :=
  let rr := (computeRange cs).1
  let gg := (computeRange cs).2.1
  let bb := (computeRange cs).2.2
  if rr ≥ gg ∧ rr ≥ bb then sortByChannel (fun c => c.r) cs
  else if gg ≥ bb then sortByChannel (fun c => c.g) cs
  else sortByChannel (fun c => c.b) cs

/-- One split: the largest box is sorted, its first `size/2` colors stay in
place, the rest become a new box pushed at the back. -/
def splitStep (boxes : List (List Color)) : List (List Color) :=
  let idx := (pickLargest boxes).1
  let sorted := sortBox (boxes.getD idx [])
  let mid := sorted.length / 2
  boxes.set idx (sorted.take mid) ++ [sorted.drop mid]

/-- The `while (boxes.size() < 256)` split loop.  Each iteration either
breaks (`largestRange == 0`) or adds exactly one box, so starting from one
box the body runs at most 255 times; the fuel passed by `quantBoxes` covers
every iteration the C++ loop can execute. -/
def quantLoop : ℕ → List (List Color) → List (List Color)
  | 0, boxes => boxes
  | fuel + 1, boxes =>
    if boxes.length < 256 then
      if (pickLargest boxes).2 = 0 then boxes
      else quantLoop fuel (splitStep boxes)
    else boxes

/-- The box list produced for a given image color list (`boxes` after the
split loop, starting from the single box holding every sampled pixel). -/
def quantBoxes (imageColors : List Color) : List (List Color) :=
  quantLoop 255 [imageColors]

/-- The palette built from the boxes: entry `i` is box `i`'s average color
for `i < boxes.size()`, opaque black beyond.  (The code starts from a copy
of the current palette, but every one of the 256 entries is overwritten by
a box average or by the black fill, so the start value is immaterial.) -/
def quantizePalette (imageColors : List Color) : List Color :=
  let boxes := quantBoxes imageColors
  (List.range 256).map
    (fun i =>
      if i < boxes.length then averageColor (boxes.getD i []) else ⟨0, 0, 0, 255⟩)

/-- Squared RGB distance of `findNearestPaletteIndex` (`int` arithmetic). -/
def sqDist (c p : Color) : ℤ :=
  ((c.r : ℤ) - (p.r : ℤ)) * ((c.r : ℤ) - (p.r : ℤ)) +
    ((c.g : ℤ) - (p.g : ℤ)) * ((c.g : ℤ) - (p.g : ℤ)) +
    ((c.b : ℤ) - (p.b : ℤ)) * ((c.b : ℤ) - (p.b : ℤ))

/-- `findNearestPaletteIndex(color, palette, 256)`: scan all 256 entries,
keeping the first index that strictly improves the best squared distance,
which starts at `INT_MAX`. -/
def findNearestPaletteIndex (color : Color) (palette : List Color) : ℕ :=
  ((List.range 256).foldl
    (fun best i =>
      if sqDist color (palette.getD i default) < best.2 then
        (i, sqDist color (palette.getD i default))
      else best)
    (0, (2147483647 : ℤ))).1

/-- The partial fold of `findNearestPaletteIndex` over the first `n`
candidate indices, for reasoning about the scan. -/
def nearestFold (color : Color) (palette : List Color) (n : ℕ) : ℕ × ℤ :=
  (List.range n).foldl
    (fun best i =>
      if sqDist color (palette.getD i default) < best.2 then
        (i, sqDist color (palette.getD i default))
      else best)
    (0, (2147483647 : ℤ))

/-- All colors of a box agree on their RGB channels (alpha may differ). -/
def RGBConst (box : List Color) : Prop :=
  ∀ c ∈ box, ∀ cA ∈ box, c.r = cA.r ∧ c.g = cA.g ∧ c.b = cA.b

/-- The quantize-and-blit path of `loadFromFile`, entered after SDL has
decoded the image into the row-major `w*h` color list `img`.  The palette
is re-fit only when `fitPalette` is set and the image has more than one
pixel; the destination-pixel loop skips out-of-bounds targets and writes
nearest-palette indices directly into the pixel array, and the function
marks the pixels dirty once at the end. -/
def loadFromColors (b : IndexedPixelBuffer) (w h : ℕ) (img : List Color)
    (destX destY : ℤ) (fitPalette : Bool) : IndexedPixelBuffer :=
  let newPalette :=
    if fitPalette ∧ 1 < w * h then quantizePalette img else b.palette
  let b1 :=
    if fitPalette ∧ 1 < w * h then setPalette b newPalette else b
  let b2 :=
    (List.range h).foldl
      (fun accY (y : ℕ) =>
        (List.range w).foldl
          (fun acc (x : ℕ) =>
            let bufX := destX + (x : ℤ)
            let bufY := destY + (y : ℤ)
            if 0 ≤ bufX ∧ bufX < acc.width ∧ 0 ≤ bufY ∧ bufY < acc.height then
              { acc with
                  pixels :=
                    acc.pixels.set (bufY * acc.width + bufX).toNat
                      (findNearestPaletteIndex (img.getD (y * w + x) default)
                        newPalette) }
            else acc)
          accY)
      b1
  markPixelsDirty b2

/-! The `Mesh3D` transform / projection / culling / shading pipeline
(Mesh3D.cpp).  `float` values are embedded as `ℝ` so that `sqrt`, `sin`
and `cos` are exact. -/

/-- 2-D float vector. -/
structure Vec2 where
  x : ℝ
  y : ℝ

instance : Inhabited Vec2 := ⟨⟨0, 0⟩⟩

instance : Add Vec2 := ⟨fun a b => ⟨a.x + b.x, a.y + b.y⟩⟩

/-- 3-D float vector (struct Vec3 in Mesh3D.h). -/
structure Vec3 where
  x : ℝ
  y : ℝ
  z : ℝ

instance : Inhabited Vec3 := ⟨⟨0, 0, 0⟩⟩

instance : Sub Vec3 := ⟨fun a b => ⟨a.x - b.x, a.y - b.y, a.z - b.z⟩⟩

/-- `Vec3::cross`. -/
def Vec3.cross (a b : Vec3) : Vec3 :=
  ⟨a.y * b.z - a.z * b.y, a.z * b.x - a.x * b.z, a.x * b.y - a.y * b.x⟩

/-- `Vec3::dot`. -/
def Vec3.dot (a b : Vec3) : ℝ :=
  a.x * b.x + a.y * b.y + a.z * b.z

/-- `Vec3::normalize`: divides by the Euclidean length when it exceeds
the guard `0.0001f`, otherwise leaves the vector unchanged. -/
noncomputable def Vec3.normalizeV (v : Vec3) : Vec3 :=
  let len := Real.sqrt (v.x * v.x + v.y * v.y + v.z * v.z)
  if len > 0.0001 then ⟨v.x / len, v.y / len, v.z / len⟩ else v

/-- Truncation toward zero, the semantics of C++ `static_cast<int>` on a
real float value. -/
noncomputable def realTrunc (x : ℝ) : ℤ :=
  if 0 ≤ x then ⌊x⌋ else ⌈x⌉

/-- Anchor points on a sprite (Types.h). -/
inductive AnchorPoint where
  | TopLeft | TopRight | BottomLeft | BottomRight | Center
  deriving DecidableEq, Repr

/-- `MeshAnchorMode` (Mesh3D.h). -/
inductive MeshAnchorMode where
  | Viewport | Sprite
  deriving DecidableEq, Repr

/-- `MeshRenderMode` (Mesh3D.h). -/
inductive MeshRenderMode where
  | Filled | Wireframe
  deriving DecidableEq, Repr

/-- The slice of a `Sprite` consulted by `getAnchorPosition`: its position,
its texture's pixel size when a texture exists, and its 2-D scale. -/
structure Sprite where
  position : Vec2
  texture : Option (ℕ × ℕ)
  scale : Vec2

/-- The static helper `getAnchorPosition(sprite, anchor)`: without a
texture the sprite position is returned directly; otherwise the scaled
size selects the corner or center. -/
noncomputable def getAnchorPosition (s : Sprite) (anchor : AnchorPoint) : Vec2 :=
  match s.texture with
  | none => s.position
  | some (tw, th) =>
    let width := (tw : ℝ) * s.scale.x
    let height := (th : ℝ) * s.scale.y
    match anchor with
    | .TopLeft => s.position
    | .TopRight => ⟨s.position.x + width, s.position.y⟩
    | .BottomLeft => ⟨s.position.x, s.position.y + height⟩
    | .BottomRight => ⟨s.position.x + width, s.position.y + height⟩
    | .Center => ⟨s.position.x + width / 2, s.position.y + height / 2⟩

/-- A polygon face (struct Polygon in Mesh3D.h): vertex indices, the
optional parallel normal-index list, and the base palette color.  Vertex
indices are `int` in C++ but every mesh the engine builds uses nonnegative
ones; normal indices keep the full `int` range because `renderToBuffer`
guards them (see `faceNormal`). -/
structure MeshPolygon where
  vertices : List ℕ
  normals : List ℤ
  color : ℕ

/-- The render-relevant state of a `Mesh3D` object: geometry plus the
transform fields, with the anchored sprite modelled as the result of
locking the weak reference at render time (`none` = target expired). -/
structure Mesh3D where
  vertices : List Vec3
  normals : List Vec3
  polygons : List MeshPolygon
  position : Vec2
  rotation : Vec3
  scale : ℝ
  autoRotation : Vec3
  focalLength : ℝ
  cameraDistance : ℝ
  visible : Bool
  backFaceCulling : Bool
  renderMode : MeshRenderMode
  anchorMode : MeshAnchorMode
  anchoredSprite : Option Sprite
  spriteAnchor : AnchorPoint
  anchorOffset : Vec2

/-- The rotation applied to vertices and normals alike: rotate about X,
then Y, then Z with the precomputed sines/cosines; the result reassembles
`(x3, y3, z2)` exactly as the code does. -/
noncomputable def rotateVec (rot v : Vec3) : Vec3 :=
  let cosX := Real.cos rot.x
  let sinX := Real.sin rot.x
  let cosY := Real.cos rot.y
  let sinY := Real.sin rot.y
  let cosZ := Real.cos rot.z
  let sinZ := Real.sin rot.z
  let y1 := v.y * cosX - v.z * sinX
  let z1 := v.y * sinX + v.z * cosX
  let x2 := v.x * cosY - z1 * sinY
  let z2 := v.x * sinY + z1 * cosY
  let x3 := x2 * cosZ - y1 * sinZ
  let y3 := x2 * sinZ + y1 * cosZ
  ⟨x3, y3, z2⟩

/-- Per-vertex transform: scale first, then the three rotations. -/
noncomputable def transformVertex (m : Mesh3D) (v : Vec3) : Vec3 :=
  rotateVec m.rotation ⟨v.x * m.scale, v.y * m.scale, v.z * m.scale⟩

/-- The `transformed` vertex array of one `renderToBuffer` pass. -/
noncomputable def transformedVerts (m : Mesh3D) : List Vec3 :=
  m.vertices.map (transformVertex m)

/-- The `transformedNormals` array: rotated (never scaled) and
re-normalized. -/
noncomputable def transformedNormals (m : Mesh3D) : List Vec3 :=
  m.normals.map (fun n => Vec3.normalizeV (rotateVec m.rotation n))

/-- Per-polygon normal resolution: the code uses
`transformedNormals[poly.normals[0]]` when the normal-index list is
nonempty and `poly.normals[0] < transformedNormals.size()` holds — an
`int`/`size_t` comparison, so a negative index converts to a huge unsigned
value and fails the test.  Otherwise it falls back to the normalized cross
product of the polygon's first three transformed vertices.  Only the first
normal index is ever read. -/
noncomputable def faceNormal (m : Mesh3D) (p : MeshPolygon) : Vec3 :=
  let tn := transformedNormals m
  let n0 := p.normals.getD 0 0
  if p.normals ≠ [] ∧ 0 ≤ n0 ∧ n0.toNat < tn.length then
    tn.getD n0.toNat default
  else
    let tv := transformedVerts m
    let v0 := tv.getD (p.vertices.getD 0 0) default
    let v1 := tv.getD (p.vertices.getD 1 0) default
    let v2 := tv.getD (p.vertices.getD 2 0) default
    Vec3.normalizeV ((v1 - v0).cross (v2 - v0))

/-- `lightIntensity = normal.dot(viewDir)` with the fixed view direction
`(0, 0, -1)`. -/
noncomputable def lightIntensity (m : Mesh3D) (p : MeshPolygon) : ℝ :=
  (faceNormal m p).dot ⟨0, 0, -1⟩

/-- The clamp `std::max(0.0f, std::min(1.0f, lightIntensity))`. -/
noncomputable def clampedIntensity (m : Mesh3D) (p : MeshPolygon) : ℝ :=
  max 0 (min 1 (lightIntensity m p))

/-- The banded lighting color: bright band above `0.67`, medium band
(`+7`) above `0.33`, dark band (`+14`) below; the sums land in a
`uint8_t`, hence the reductions mod 256. -/
noncomputable def shadedColor (m : Mesh3D) (p : MeshPolygon) : ℕ :=
  if clampedIntensity m p > 0.67 then p.color
  else if clampedIntensity m p > 0.33 then (p.color + 7) % 256
  else (p.color + 14) % 256

/-- Anchor resolution at the top of `renderToBuffer`: `finalPosition`
starts as the explicit `position_` and is replaced only when the mesh is
in `Sprite` mode and the weak sprite reference still locks. -/
noncomputable def finalPosition (m : Mesh3D) : Vec2 :=
  match m.anchorMode, m.anchoredSprite with
  | .Sprite, some s => getAnchorPosition s m.spriteAnchor + m.anchorOffset
  | _, _ => m.position

/-- The projection divisor: `z = p.z + cameraDistance` clamped up to
`1.0` (`if (z < 1.0f) z = 1.0f`). -/
noncomputable def projDivisor (cameraDistance : ℝ) (p : Vec3) : ℝ :=
  let z := p.z + cameraDistance
  if z < 1 then 1 else z

/-- Perspective projection of one transformed vertex: divide the scaled
coordinates by the clamped divisor, add the anchor position, and truncate
the screen coordinates to `int`.  (The code stores them back into floats
and re-truncates at the rasterization call; for the integer values
produced here the round trip is exact.) -/
noncomputable def projectVertex (pos : Vec2) (focalLength cameraDistance : ℝ)
    (p : Vec3) : ℤ × ℤ :=
  (realTrunc (pos.x + p.x * focalLength / projDivisor cameraDistance p),
    realTrunc (pos.y + p.y * focalLength / projDivisor cameraDistance p))

/-- All projected vertices of one polygon. -/
noncomputable def projectedPoly (m : Mesh3D) (p : MeshPolygon) : List (ℤ × ℤ) :=
  p.vertices.map
    (fun vi =>
      projectVertex (finalPosition m) m.focalLength m.cameraDistance
        ((transformedVerts m).getD vi default))

/-- What one polygon contributes to the pass: nothing (fewer than three
vertices, or culled), or a rasterization of its projected vertices in a
single lit color. -/
inductive PolyAction where
  | skip : PolyAction
  | draw (color : ℕ) (pts : List (ℤ × ℤ)) : PolyAction
  deriving DecidableEq, Repr

/-- The per-polygon decision of `renderToBuffer`: skip degenerate
polygons, apply the back-face cull (`backFaceCulling_ && lightIntensity <=
0`), otherwise draw with the banded color.  The decision is independent of
the render mode. -/
noncomputable def polyAction (m : Mesh3D) (p : MeshPolygon) : PolyAction :=
  if p.vertices.length < 3 then .skip
  else if m.backFaceCulling ∧ lightIntensity m p ≤ 0 then .skip
  else .draw (shadedColor m p) (projectedPoly m p)

open Classical

/-- Rasterizing one polygon action into the buffer: fan triangulation via
`fillTriangle` in `Filled` mode (`for (i = 1; i + 1 < size; ++i)`), a
closed line loop via `drawLine` in `Wireframe` mode. -/
def applyPoly (mode : MeshRenderMode) (b : IndexedPixelBuffer) :
    PolyAction → IndexedPixelBuffer
  | .skip => b
  | .draw c pts =>
    match mode with
    | .Filled =>
      (List.range' 1 (pts.length - 2)).foldl
        (fun bb i =>
          let p0 := pts.getD 0 (0, 0)
          let pa := pts.getD i (0, 0)
          let pb := pts.getD (i + 1) (0, 0)
          fillTriangle bb p0.1 p0.2 pa.1 pa.2 pb.1 pb.2 c)
        b
    | .Wireframe =>
      (List.range pts.length).foldl
        (fun bb i =>
          let pa := pts.getD i (0, 0)
          let pb := pts.getD ((i + 1) % pts.length) (0, 0)
          drawLine bb pa.1 pa.2 pb.1 pb.2 c)
        b

/-- `Mesh3D::renderToBuffer(buffer)`: returns untouched on an invisible
or empty mesh, otherwise processes every polygon in order.  The method is
`const` in C++: it never mutates the mesh, so the model returns only the
buffer. -/
noncomputable def renderToBuffer (m : Mesh3D) (buffer : IndexedPixelBuffer) :
    IndexedPixelBuffer :=
  if m.visible ∧ m.vertices ≠ [] ∧ m.polygons ≠ [] then
    m.polygons.foldl (fun b p => applyPoly m.renderMode b (polyAction m p)) buffer
  else buffer

/-- Whether a polygon action rasterizes anything. -/
def isDraw : PolyAction → Bool
  | .skip => false
  | .draw _ _ => true

/-- One flag per polygon of a mesh: `true` exactly when the polygon is
rasterized (not skipped) during a `renderToBuffer` pass. -/
noncomputable def renderedFlags (m : Mesh3D) : List Bool :=
  m.polygons.map (fun p => isDraw (polyAction m p))

/-- The number of polygons rasterized during one pass. -/
noncomputable def renderedCount (m : Mesh3D) : ℕ :=
  (renderedFlags m).count true

/-- The transform-state defaults of a freshly built `Mesh3D` (member
initializers in Mesh3D.h): viewport anchor at the origin, zero rotation,
unit scale, focal length 1039, camera distance 200, visible, back-face
culling on, filled mode. -/
noncomputable def defaultMesh : Mesh3D :=
  { vertices := []
    normals := []
    polygons := []
    position := ⟨0, 0⟩
    rotation := ⟨0, 0, 0⟩
    scale := 1
    autoRotation := ⟨0, 0, 0⟩
    focalLength := 1039
    cameraDistance := 200
    visible := true
    backFaceCulling := true
    renderMode := .Filled
    anchorMode := .Viewport
    anchoredSprite := none
    spriteAnchor := .Center
    anchorOffset := ⟨0, 0⟩ }

/-- `Mesh3D::createCube(size)`: eight corner vertices at `±size/2`, no
vertex normals, and six quads with base colors 1–6 (front, back, left,
right, top, bottom), CCW winding as in the source. -/
noncomputable def createCube (size : ℝ) : Mesh3D :=
  let s := size / 2
  { defaultMesh with
      vertices :=
        [⟨-s, -s, -s⟩, ⟨s, -s, -s⟩, ⟨s, s, -s⟩, ⟨-s, s, -s⟩,
          ⟨-s, -s, s⟩, ⟨s, -s, s⟩, ⟨s, s, s⟩, ⟨-s, s, s⟩]
      polygons :=
        [⟨[0, 1, 2, 3], [], 1⟩,
          ⟨[5, 4, 7, 6], [], 2⟩,
          ⟨[4, 0, 3, 7], [], 3⟩,
          ⟨[1, 5, 6, 2], [], 4⟩,
          ⟨[3, 2, 6, 7], [], 5⟩,
          ⟨[4, 5, 1, 0], [], 6⟩] }

/-- A buffer whose pixel array has the size the constructor establishes
(`width * height` entries); every buffer the engine builds satisfies this,
and all drawing operations preserve it. -/
def WellSized (b : IndexedPixelBuffer) : Prop :=
  b.pixels.length = (b.width * b.height).toNat

instance (b : IndexedPixelBuffer) : Decidable (WellSized b) := by
  unfold WellSized; infer_instance

/-! Claim theorems. -/

/-- C3: on any well-sized buffer, an in-bounds `setPixel(x,y,i)` followed
by `getPixel(x,y)` returns `i`; for out-of-bounds `(x,y)`, `getPixel`
returns 0 and `setPixel` returns the buffer entirely unchanged. -/
theorem setPixel_getPixel_roundtrip (b : IndexedPixelBuffer) (hwf : WellSized b)
    (x y : ℤ) (i : ℕ) (hi : i ≤ 255) :
    (inBounds b x y → getPixel (setPixel b x y i) x y = i) ∧
    (¬inBounds b x y → getPixel b x y = 0 ∧ setPixel b x y i = b) := by
  constructor
  · intro h
    obtain ⟨hx0, hxw, hy0, hyh⟩ := h
    have hge : 0 ≤ y * b.width := mul_nonneg hy0 (le_trans hx0 hxw.le)
    have hlt : y * b.width + x < b.width * b.height := by nlinarith
    have hidx : (y * b.width + x).toNat < b.pixels.length := by
      rw [hwf]; omega
    simp only [setPixel, getPixel, markPixelsDirty, inBounds]
    simp only [hx0, hxw, hy0, hyh, and_self, if_true]
    rw [List.getD_eq_getElem?_getD, List.getElem?_set_self hidx]
    rfl
  · intro h
    exact ⟨by simp [getPixel, h], by simp [setPixel, h]⟩

/-- Witness for C3 at a concrete buffer: in-bounds round trip at (1,2) on
a 4×4 buffer, and the out-of-bounds no-op at (9,2). -/
theorem setPixel_getPixel_roundtrip_witness :
    (getPixel (setPixel (mkIndexedPixelBuffer 4 4) 1 2 7) 1 2 = 7) ∧
    (getPixel (mkIndexedPixelBuffer 4 4) 9 2 = 0 ∧
      setPixel (mkIndexedPixelBuffer 4 4) 9 2 7 = mkIndexedPixelBuffer 4 4) :=
  ⟨(setPixel_getPixel_roundtrip (mkIndexedPixelBuffer 4 4) (by decide) 1 2 7
      (by decide)).1 (by decide),
    (setPixel_getPixel_roundtrip (mkIndexedPixelBuffer 4 4) (by decide) 9 2 7
      (by decide)).2 (by decide)⟩

/-- C4: from a state with both dirty flags false, `setPaletteEntry` and
`setPalette` set `paletteDirty` and leave `pixelsDirty` false, while an
in-bounds `setPixel` sets `pixelsDirty` and leaves `paletteDirty` false. -/
theorem dirtyFlag_independence (b : IndexedPixelBuffer)
    (hp : b.pixelsDirty = false) (hq : b.paletteDirty = false)
    (idx : ℕ) (c : Color) (pal : List Color) (x y : ℤ) (i : ℕ) :
    ((setPaletteEntry b idx c).paletteDirty = true ∧
      (setPaletteEntry b idx c).pixelsDirty = false) ∧
    ((setPalette b pal).paletteDirty = true ∧
      (setPalette b pal).pixelsDirty = false) ∧
    (inBounds b x y →
      (setPixel b x y i).pixelsDirty = true ∧
      (setPixel b x y i).paletteDirty = false) := by
  refine ⟨⟨rfl, ?_⟩, ⟨rfl, ?_⟩, fun h => ⟨?_, ?_⟩⟩
  · simpa [setPaletteEntry, markPaletteDirty] using hp
  · simpa [setPalette, markPaletteDirty] using hp
  · simp [setPixel, markPixelsDirty, h]
  · simpa [setPixel, markPixelsDirty, h] using hq

/-- Witness for C4: a freshly constructed 4×4 buffer with both flags
cleared, mutated at palette entry 3 and at pixel (1,1). -/
theorem dirtyFlag_independence_witness :
    (((setPaletteEntry
        { mkIndexedPixelBuffer 4 4 with pixelsDirty := false, paletteDirty := false }
        3 ⟨1, 2, 3, 255⟩).paletteDirty = true ∧
      (setPaletteEntry
        { mkIndexedPixelBuffer 4 4 with pixelsDirty := false, paletteDirty := false }
        3 ⟨1, 2, 3, 255⟩).pixelsDirty = false) ∧
    ((setPalette
        { mkIndexedPixelBuffer 4 4 with pixelsDirty := false, paletteDirty := false }
        []).paletteDirty = true ∧
      (setPalette
        { mkIndexedPixelBuffer 4 4 with pixelsDirty := false, paletteDirty := false }
        []).pixelsDirty = false) ∧
    (inBounds
        { mkIndexedPixelBuffer 4 4 with pixelsDirty := false, paletteDirty := false }
        1 1 →
      (setPixel
        { mkIndexedPixelBuffer 4 4 with pixelsDirty := false, paletteDirty := false }
        1 1 5).pixelsDirty = true ∧
      (setPixel
        { mkIndexedPixelBuffer 4 4 with pixelsDirty := false, paletteDirty := false }
        1 1 5).paletteDirty = false)) :=
  dirtyFlag_independence
    { mkIndexedPixelBuffer 4 4 with pixelsDirty := false, paletteDirty := false }
    rfl rfl 3 ⟨1, 2, 3, 255⟩ [] 1 1 5

/-- C7: a `fillTriangle` call whose three Y coordinates are all equal
leaves the buffer entirely unchanged (the `y0 == y2` early return after
sorting); in particular `fillTriangle(2,2,2,2,2,2,7)` modifies nothing. -/
theorem fillTriangle_degenerate (b : IndexedPixelBuffer) (x0 y0 x1 y1 x2 y2 : ℤ)
    (i : ℕ) (h01 : y0 = y1) (h12 : y1 = y2) :
    fillTriangle b x0 y0 x1 y1 x2 y2 i = b := by
  subst h01 h12
  simp [fillTriangle]

/-- Witness for C7: the degenerate call of the spec's test list. -/
theorem fillTriangle_degenerate_witness :
    fillTriangle (mkIndexedPixelBuffer 8 8) 2 2 2 2 2 2 7 =
      mkIndexedPixelBuffer 8 8 :=
  fillTriangle_degenerate (mkIndexedPixelBuffer 8 8) 2 2 2 2 2 2 7 rfl rfl

/-- C9: a freshly constructed `IndexedPixelBuffer(w, h)` with positive
dimensions has `w*h` pixels all equal to index 0, the opaque grayscale
palette `(i,i,i,255)` in every one of its 256 entries, and both
`pixelsDirty` and `paletteDirty` initially true. -/
theorem constructor_state (w h : ℤ) (hw : 0 < w) (hh : 0 < h) :
    (mkIndexedPixelBuffer w h).pixels.length = (w * h).toNat ∧
    (∀ p ∈ (mkIndexedPixelBuffer w h).pixels, p = 0) ∧
    ((mkIndexedPixelBuffer w h).palette.length = 256 ∧
      ∀ i : ℕ, i < 256 →
        (mkIndexedPixelBuffer w h).palette.getD i default = ⟨i, i, i, 255⟩) ∧
    (mkIndexedPixelBuffer w h).pixelsDirty = true ∧
    (mkIndexedPixelBuffer w h).paletteDirty = true := by
  refine ⟨by simp [mkIndexedPixelBuffer], ?_, ⟨by simp [mkIndexedPixelBuffer], ?_⟩,
    rfl, rfl⟩
  · intro p hp
    exact List.eq_of_mem_replicate hp
  · intro i hi
    simp [mkIndexedPixelBuffer, List.getD, List.getElem?_map, List.getElem?_range, hi]

/-- C6: the projection divisor equals `max(1.0, transformedZ +
cameraDistance)`, hence is at least 1 for every input (the
division-by-zero case is unreachable), and the projected point is the
`int` truncation of `anchor + (coord * focalLength) / divisor` in each
axis. -/
theorem projection_guard (pos : Vec2) (focalLength cameraDistance : ℝ)
    (p : Vec3) :
    projDivisor cameraDistance p = max 1 (p.z + cameraDistance) ∧
    1 ≤ projDivisor cameraDistance p ∧
    projectVertex pos focalLength cameraDistance p =
      (realTrunc (pos.x + p.x * focalLength / max 1 (p.z + cameraDistance)),
        realTrunc (pos.y + p.y * focalLength / max 1 (p.z + cameraDistance))) := by
  have hmax : projDivisor cameraDistance p = max 1 (p.z + cameraDistance) := by
    unfold projDivisor
    rcases lt_or_le (p.z + cameraDistance) 1 with h | h
    · rw [if_pos h, max_eq_left h.le]
    · rw [if_neg (not_lt.mpr h), max_eq_right h]
  exact ⟨hmax, hmax ▸ le_max_left 1 _, by unfold projectVertex; rw [hmax]⟩

/-- Auxiliary congruence: the per-polygon decision only reads the mesh's
geometry, rotation, scale, culling flag, projection parameters and the
resolved anchor position. -/
theorem polyAction_congr (m mA : Mesh3D) (h1 : m.vertices = mA.vertices)
    (h2 : m.normals = mA.normals) (h3 : m.rotation = mA.rotation)
    (h4 : m.scale = mA.scale) (h5 : m.backFaceCulling = mA.backFaceCulling)
    (h6 : m.focalLength = mA.focalLength)
    (h7 : m.cameraDistance = mA.cameraDistance)
    (hfp : finalPosition m = finalPosition mA) (p : MeshPolygon) :
    polyAction m p = polyAction mA p := by
  have htv : transformVertex m = transformVertex mA := by
    funext v; simp only [transformVertex, rotateVec, h3, h4]
  have hTV : transformedVerts m = transformedVerts mA := by
    simp only [transformedVerts, h1, htv]
  have hTN : transformedNormals m = transformedNormals mA := by
    simp only [transformedNormals, rotateVec, h2, h3]
  have hfn : faceNormal m p = faceNormal mA p := by
    simp only [faceNormal, hTV, hTN]
  have hli : lightIntensity m p = lightIntensity mA p := by
    simp only [lightIntensity, hfn]
  have hsc : shadedColor m p = shadedColor mA p := by
    simp only [shadedColor, clampedIntensity, hli]
  have hpp : projectedPoly m p = projectedPoly mA p := by
    simp only [projectedPoly, projectVertex, projDivisor, hTV, hfp, h6, h7]
  simp only [polyAction, h5, hli, hsc, hpp]

/-- C8: with the mesh in `Sprite` anchor mode and the anchored sprite
expired (the weak reference locks to null), `renderToBuffer` uses the last
explicitly set `position_` as the render origin and behaves exactly as in
`Viewport` mode; the method is `const`, so the mesh state — the anchor
mode included — is unchanged, and no error path exists. -/
theorem anchor_expiry_fallback (m : Mesh3D) (buffer : IndexedPixelBuffer)
    (hmode : m.anchorMode = MeshAnchorMode.Sprite)
    (hlock : m.anchoredSprite = none) :
    finalPosition m = m.position ∧
    renderToBuffer m buffer =
      renderToBuffer { m with anchorMode := MeshAnchorMode.Viewport } buffer := by
  have hfp : finalPosition m = m.position := by
    unfold finalPosition
    rw [hmode, hlock]
  have hfp2 : finalPosition { m with anchorMode := MeshAnchorMode.Viewport } =
      m.position := rfl
  have hpa : ∀ p, polyAction m p =
      polyAction { m with anchorMode := MeshAnchorMode.Viewport } p :=
    fun p =>
      polyAction_congr m { m with anchorMode := MeshAnchorMode.Viewport }
        rfl rfl rfl rfl rfl rfl rfl (hfp.trans hfp2.symm) p
  exact ⟨hfp, by simp only [renderToBuffer, hpa]⟩

/-- Witness for C8: a cube mesh whose anchor mode was switched to
`Sprite` while its sprite reference has expired. -/
theorem anchor_expiry_fallback_witness :
    finalPosition { createCube 30 with anchorMode := MeshAnchorMode.Sprite } =
      { createCube 30 with anchorMode := MeshAnchorMode.Sprite }.position ∧
    renderToBuffer { createCube 30 with anchorMode := MeshAnchorMode.Sprite }
        (mkIndexedPixelBuffer 4 4) =
      renderToBuffer
        { { createCube 30 with anchorMode := MeshAnchorMode.Sprite } with
            anchorMode := MeshAnchorMode.Viewport }
        (mkIndexedPixelBuffer 4 4) :=
  anchor_expiry_fallback
    { createCube 30 with anchorMode := MeshAnchorMode.Sprite }
    (mkIndexedPixelBuffer 4 4) rfl rfl

/-- Witness for C9 at a 2×3 buffer. -/
theorem constructor_state_witness :
    (mkIndexedPixelBuffer 2 3).pixels.length = ((2 : ℤ) * 3).toNat ∧
    (∀ p ∈ (mkIndexedPixelBuffer 2 3).pixels, p = 0) ∧
    ((mkIndexedPixelBuffer 2 3).palette.length = 256 ∧
      ∀ i : ℕ, i < 256 →
        (mkIndexedPixelBuffer 2 3).palette.getD i default = ⟨i, i, i, 255⟩) ∧
    (mkIndexedPixelBuffer 2 3).pixelsDirty = true ∧
    (mkIndexedPixelBuffer 2 3).paletteDirty = true :=
  constructor_state 2 3 (by decide) (by decide)

/-- Component form of `Vec3` subtraction, for rewriting. -/
theorem Vec3.sub_def (a b : Vec3) : a - b = ⟨a.x - b.x, a.y - b.y, a.z - b.z⟩ :=
  rfl

/-- Component form of `Vec2` addition, for rewriting. -/
theorem Vec2.add_def (a b : Vec2) : a + b = ⟨a.x + b.x, a.y + b.y⟩ :=
  rfl

/-- `sqrt 810000 = 900`, the length of every face cross product of the
default 30-unit cube. -/
theorem sqrt_810000 : Real.sqrt 810000 = 900 := by
  rw [show (810000 : ℝ) = 900 ^ 2 by norm_num]
  exact Real.sqrt_sq (by norm_num)

/-- The factory cube keeps the default-enabled back-face culling. -/
theorem cube_backFaceCulling : (createCube 30).backFaceCulling = true := rfl

/-- The polygon list of the default cube. -/
theorem cube_polygons :
    (createCube 30).polygons =
      [⟨[0, 1, 2, 3], [], 1⟩, ⟨[5, 4, 7, 6], [], 2⟩, ⟨[4, 0, 3, 7], [], 3⟩,
        ⟨[1, 5, 6, 2], [], 4⟩, ⟨[3, 2, 6, 7], [], 5⟩, ⟨[4, 5, 1, 0], [], 6⟩] := by
  simp [createCube, defaultMesh]

/-- With zero rotation and unit scale the transformed cube vertices are
the corners `±15` themselves. -/
theorem cube_transformedVerts :
    transformedVerts (createCube 30) =
      [⟨-15, -15, -15⟩, ⟨15, -15, -15⟩, ⟨15, 15, -15⟩, ⟨-15, 15, -15⟩,
        ⟨-15, -15, 15⟩, ⟨15, -15, 15⟩, ⟨15, 15, 15⟩, ⟨-15, 15, 15⟩] := by
  norm_num [transformedVerts, transformVertex, rotateVec, createCube, defaultMesh,
    Real.cos_zero, Real.sin_zero]

/-- The cube factory adds no vertex normals. -/
theorem cube_transformedNormals : transformedNormals (createCube 30) = [] := by
  simp [transformedNormals, createCube, defaultMesh]

/-- Light intensity of the cube's front face (outward normal `(0,0,-1)`):
the winding cross product points toward `+Z`, so the intensity is `-1`. -/
theorem cube_intensity_front :
    lightIntensity (createCube 30) ⟨[0, 1, 2, 3], [], 1⟩ = -1 := by
  norm_num [lightIntensity, faceNormal, cube_transformedVerts,
    cube_transformedNormals, Vec3.cross, Vec3.dot, Vec3.normalizeV, Vec3.sub_def,
    sqrt_810000]

/-- Light intensity of the cube's back face (outward normal `(0,0,1)`):
the winding cross product points toward `-Z`, so the intensity is `1`. -/
theorem cube_intensity_back :
    lightIntensity (createCube 30) ⟨[5, 4, 7, 6], [], 2⟩ = 1 := by
  norm_num [lightIntensity, faceNormal, cube_transformedVerts,
    cube_transformedNormals, Vec3.cross, Vec3.dot, Vec3.normalizeV, Vec3.sub_def,
    sqrt_810000]

/-- Light intensity of the cube's left face: zero (edge-on to the view). -/
theorem cube_intensity_left :
    lightIntensity (createCube 30) ⟨[4, 0, 3, 7], [], 3⟩ = 0 := by
  norm_num [lightIntensity, faceNormal, cube_transformedVerts,
    cube_transformedNormals, Vec3.cross, Vec3.dot, Vec3.normalizeV, Vec3.sub_def,
    sqrt_810000]

/-- Light intensity of the cube's right face: zero. -/
theorem cube_intensity_right :
    lightIntensity (createCube 30) ⟨[1, 5, 6, 2], [], 4⟩ = 0 := by
  norm_num [lightIntensity, faceNormal, cube_transformedVerts,
    cube_transformedNormals, Vec3.cross, Vec3.dot, Vec3.normalizeV, Vec3.sub_def,
    sqrt_810000]

/-- Light intensity of the cube's top face: zero. -/
theorem cube_intensity_top :
    lightIntensity (createCube 30) ⟨[3, 2, 6, 7], [], 5⟩ = 0 := by
  norm_num [lightIntensity, faceNormal, cube_transformedVerts,
    cube_transformedNormals, Vec3.cross, Vec3.dot, Vec3.normalizeV, Vec3.sub_def,
    sqrt_810000]

/-- Light intensity of the cube's bottom face: zero. -/
theorem cube_intensity_bottom :
    lightIntensity (createCube 30) ⟨[4, 5, 1, 0], [], 6⟩ = 0 := by
  norm_num [lightIntensity, faceNormal, cube_transformedVerts,
    cube_transformedNormals, Vec3.cross, Vec3.dot, Vec3.normalizeV, Vec3.sub_def,
    sqrt_810000]

/-- C1, counterexample: the factory cube with its default state (culling
enabled, rotation `(0,0,0)`, view direction `(0,0,-1)`) does NOT
rasterize three faces in one `renderToBuffer` pass. -/
theorem cube_rendered_count_ne_three : renderedCount (createCube 30) ≠ 3 := by
  have hflags :
      renderedFlags (createCube 30) = [false, true, false, false, false, false] := by
    simp only [renderedFlags, cube_polygons, List.map_cons, List.map_nil,
      polyAction, cube_intensity_front, cube_intensity_back, cube_intensity_left,
      cube_intensity_right, cube_intensity_top, cube_intensity_bottom]
    norm_num [isDraw, createCube, defaultMesh]
  simp [renderedCount, hflags]

/-- C1, amended: one `renderToBuffer` pass over the factory cube with
culling enabled, zero rotation and view direction `(0,0,-1)` rasterizes
exactly 1 of the 6 faces — the back face (polygon index 1, the face at
`z = +15` whose outward normal has positive Z component); the other five
faces, whose outward normals have zero or negative Z component, are all
skipped by the cull test `intensity <= 0`. -/
theorem cube_rendered_faces :
    renderedFlags (createCube 30) = [false, true, false, false, false, false] ∧
    renderedCount (createCube 30) = 1 := by
  have hflags :
      renderedFlags (createCube 30) = [false, true, false, false, false, false] := by
    simp only [renderedFlags, cube_polygons, List.map_cons, List.map_nil,
      polyAction, cube_intensity_front, cube_intensity_back, cube_intensity_left,
      cube_intensity_right, cube_intensity_top, cube_intensity_bottom]
    norm_num [isDraw, createCube, defaultMesh]
  exact ⟨hflags, by simp [renderedCount, hflags]⟩

/-- C5: for a polygon that survives the degenerate-size check and the
back-face cull and whose base color lies in 1–7, the rasterization color
is the base color above clamped intensity `0.67`, base+7 in `(0.33,
0.67]`, and base+14 at or below `0.33`; the per-polygon action (hence the
color handed to `fillTriangle` and `drawLine`) is independent of the
render mode. -/
theorem banded_lighting (m : Mesh3D) (p : MeshPolygon)
    (hb1 : 1 ≤ p.color) (hb7 : p.color ≤ 7)
    (hv : ¬p.vertices.length < 3)
    (hcull : ¬(m.backFaceCulling ∧ lightIntensity m p ≤ 0)) :
    polyAction m p = PolyAction.draw (shadedColor m p) (projectedPoly m p) ∧
    (clampedIntensity m p > 0.67 → shadedColor m p = p.color) ∧
    (0.33 < clampedIntensity m p ∧ clampedIntensity m p ≤ 0.67 →
      shadedColor m p = p.color + 7) ∧
    (clampedIntensity m p ≤ 0.33 → shadedColor m p = p.color + 14) ∧
    (∀ mode, polyAction { m with renderMode := mode } p = polyAction m p) := by
  refine ⟨?_, ?_, ?_, ?_, fun _ => rfl⟩
  · rw [polyAction, if_neg hv, if_neg hcull]
  · intro h
    rw [shadedColor, if_pos h]
  · intro ⟨h1, h2⟩
    rw [shadedColor, if_neg (not_lt.mpr h2), if_pos h1, Nat.mod_eq_of_lt (by omega)]
  · intro h
    rw [shadedColor, if_neg (not_lt.mpr (le_trans h (by norm_num))),
      if_neg (not_lt.mpr h), Nat.mod_eq_of_lt (by omega)]

/-- Witness for C5: the cube's back face (base color 2, intensity 1) is
drawn in the bright band, keeping color 2. -/
theorem banded_lighting_witness :
    shadedColor (createCube 30) ⟨[5, 4, 7, 6], [], 2⟩ = 2 :=
  (banded_lighting (createCube 30) ⟨[5, 4, 7, 6], [], 2⟩ (by decide) (by decide)
      (by decide)
      (by norm_num [cube_intensity_back, cube_backFaceCulling])).2.1
    (by norm_num [clampedIntensity, cube_intensity_back])

/-- C10: a polygon whose normal-index list is empty, or whose first
normal index falls outside the transformed-normals array (negative
indices included — the `int` converts to a huge `size_t`), silently falls
back to the normalized cross product of `(v1 - v0)` and `(v2 - v0)` over
its first three transformed vertices; and the face normal only ever
consults the first entry of the normal-index list. -/
theorem normal_index_fallback (m : Mesh3D) (p : MeshPolygon) :
    (p.normals = [] ∨
        ¬(0 ≤ p.normals.getD 0 0 ∧
          (p.normals.getD 0 0).toNat < (transformedNormals m).length) →
      faceNormal m p =
        Vec3.normalizeV
          (((transformedVerts m).getD (p.vertices.getD 1 0) default -
              (transformedVerts m).getD (p.vertices.getD 0 0) default).cross
            ((transformedVerts m).getD (p.vertices.getD 2 0) default -
              (transformedVerts m).getD (p.vertices.getD 0 0) default))) ∧
    (∀ (n0 : ℤ) (rest restA : List ℤ),
      faceNormal m { p with normals := n0 :: rest } =
        faceNormal m { p with normals := n0 :: restA }) := by
  constructor
  · intro h
    rw [faceNormal]
    rcases h with h | h
    · rw [if_neg (by simp [h])]
    · rw [if_neg (by simp only [not_and, ne_eq]; intro _ h0 hlt; exact h ⟨h0, hlt⟩)]
  · intro n0 rest restA
    by_cases hc : 0 ≤ n0 ∧ n0.toNat < (transformedNormals m).length <;>
      simp [faceNormal, hc]

/-- Witness for C10: the cube has no normals at all, so a polygon claiming
normal index 5 is out of range and falls back to the cross product. -/
theorem normal_index_fallback_witness :
    faceNormal (createCube 30) ⟨[0, 1, 2], [5], 3⟩ =
      Vec3.normalizeV
        (((transformedVerts (createCube 30)).getD 1 default -
            (transformedVerts (createCube 30)).getD 0 default).cross
          ((transformedVerts (createCube 30)).getD 2 default -
            (transformedVerts (createCube 30)).getD 0 default)) :=
  (normal_index_fallback (createCube 30) ⟨[0, 1, 2], [5], 3⟩).1
    (Or.inr (by simp [cube_transformedNormals]))

/-! Support lemmas for the quantization claim. -/

/-- Insertion keeps the same multiset of colors. -/
theorem insertSorted_perm (f : Color → ℕ) (c : Color) (l : List Color) :
    (insertSorted f c l).Perm (c :: l) := by
  induction l with
  | nil => exact List.Perm.refl _
  | cons d ds ih =>
    rw [insertSorted]
    split
    · exact List.Perm.refl _
    · exact (ih.cons d).trans (List.Perm.swap c d ds)

/-- Channel sorting keeps the same multiset of colors. -/
theorem sortByChannel_perm (f : Color → ℕ) (l : List Color) :
    (sortByChannel f l).Perm l := by
  induction l with
  | nil => exact List.Perm.refl _
  | cons c cs ih =>
    rw [sortByChannel]
    exact (insertSorted_perm f c _).trans (ih.cons c)

/-- The axis-selecting sort keeps the same multiset of colors. -/
theorem sortBox_perm (cs : List Color) : (sortBox cs).Perm cs := by
  simp only [sortBox]
  split_ifs <;> exact sortByChannel_perm _ cs

/-- The axis-selecting sort keeps the box size. -/
theorem sortBox_length (cs : List Color) : (sortBox cs).length = cs.length :=
  (sortBox_perm cs).length_eq

/-- The min/max fold can only move the accumulator outward. -/
theorem foldMinMax_init (f : Color → ℕ) :
    ∀ (cs : List Color) (init : ℕ × ℕ),
      (cs.foldl (fun mm c => (min mm.1 (f c), max mm.2 (f c))) init).1 ≤ init.1 ∧
      init.2 ≤ (cs.foldl (fun mm c => (min mm.1 (f c), max mm.2 (f c))) init).2 := by
  intro cs
  induction cs with
  | nil => intro init; exact ⟨le_refl _, le_refl _⟩
  | cons d ds ih =>
    intro init
    simp only [List.foldl_cons]
    exact ⟨le_trans (ih (min init.1 (f d), max init.2 (f d))).1 (min_le_left _ _),
      le_trans (le_max_left _ _) (ih (min init.1 (f d), max init.2 (f d))).2⟩

/-- Every member of the list lies between the folded min and max. -/
theorem foldMinMax_mem (f : Color → ℕ) :
    ∀ (cs : List Color) (init : ℕ × ℕ) (c : Color), c ∈ cs →
      (cs.foldl (fun mm c => (min mm.1 (f c), max mm.2 (f c))) init).1 ≤ f c ∧
      f c ≤ (cs.foldl (fun mm c => (min mm.1 (f c), max mm.2 (f c))) init).2 := by
  intro cs
  induction cs with
  | nil => intro init c hc; cases hc
  | cons d ds ih =>
    intro init c hc
    simp only [List.foldl_cons]
    rcases List.mem_cons.mp hc with rfl | h
    · exact ⟨le_trans (foldMinMax_init f ds (min init.1 (f c), max init.2 (f c))).1
          (min_le_right _ _),
        le_trans (le_max_right _ _)
          (foldMinMax_init f ds (min init.1 (f c), max init.2 (f c))).2⟩
    · exact ih (min init.1 (f d), max init.2 (f d)) c h

/-- Member bounds phrased through `foldMinMax` itself. -/
theorem foldMinMax_mem_bounds (f : Color → ℕ) (cs : List Color) (c : Color)
    (hc : c ∈ cs) :
    (foldMinMax f cs).1 ≤ f c ∧ f c ≤ (foldMinMax f cs).2 :=
  foldMinMax_mem f cs (255, 0) c hc

/-- On a nonempty box the total range is the sum of the three channel
ranges. -/
theorem totalRange_eq (box : List Color) (hne : box ≠ []) :
    totalRange box =
      channelRange (fun c => c.r) box + channelRange (fun c => c.g) box +
        channelRange (fun c => c.b) box := by
  simp [totalRange, computeRange, hne]

/-- A box whose total channel range is non-positive is RGB-constant. -/
theorem rgbconst_of_totalRange_nonpos (box : List Color)
    (h : totalRange box ≤ 0) : RGBConst box := by
  intro c hc cA hcA
  have hne : box ≠ [] := by rintro rfl; cases hc
  rw [totalRange_eq box hne] at h
  have hcr := foldMinMax_mem_bounds (fun c => c.r) box c hc
  have hcg := foldMinMax_mem_bounds (fun c => c.g) box c hc
  have hcb := foldMinMax_mem_bounds (fun c => c.b) box c hc
  have hAr := foldMinMax_mem_bounds (fun c => c.r) box cA hcA
  have hAg := foldMinMax_mem_bounds (fun c => c.g) box cA hcA
  have hAb := foldMinMax_mem_bounds (fun c => c.b) box cA hcA
  rw [channelRange, channelRange, channelRange] at h
  simp only at hcr hcg hcb hAr hAg hAb
  refine ⟨?_, ?_, ?_⟩ <;> omega

/-- A singleton box of a genuine 8-bit color has zero total range. -/
theorem totalRange_singleton (c : Color)
    (h : c.r ≤ 255 ∧ c.g ≤ 255 ∧ c.b ≤ 255) : totalRange [c] = 0 := by
  rw [totalRange, computeRange, if_neg (by simp)]
  rw [channelRange, channelRange, channelRange]
  unfold foldMinMax
  simp only [List.foldl_cons, List.foldl_nil]
  omega

/-- A box with strictly positive total range holds at least two colors. -/
theorem two_le_length_of_totalRange_pos (box : List Color)
    (hvalid : ∀ c ∈ box, c.r ≤ 255 ∧ c.g ≤ 255 ∧ c.b ≤ 255)
    (h : 0 < totalRange box) : 2 ≤ box.length := by
  rcases box with _ | ⟨c, _ | ⟨d, t⟩⟩
  · rw [totalRange, computeRange, if_pos rfl] at h
    norm_num at h
  · rw [totalRange_singleton c (hvalid c (by simp))] at h
    exact absurd h (lt_irrefl 0)
  · simp only [List.length_cons]
    omega

/-- A family of nonempty boxes has at least as many flattened colors as
boxes. -/
theorem length_le_flatten_length (boxes : List (List Color))
    (hne : ∀ box ∈ boxes, box ≠ []) :
    boxes.length ≤ boxes.flatten.length := by
  induction boxes with
  | nil => simp
  | cons b bs ih =>
    simp only [List.flatten_cons, List.length_append, List.length_cons]
    have hb : 1 ≤ b.length := List.length_pos.mpr (hne b (by simp))
    have hbs := ih (fun box hbox => hne box (by simp [hbox]))
    omega

/-- If nonempty boxes hold no more colors than there are boxes, every box
is a singleton. -/
theorem singleton_boxes (boxes : List (List Color))
    (hne : ∀ box ∈ boxes, box ≠ [])
    (hle : boxes.flatten.length ≤ boxes.length) :
    ∀ box ∈ boxes, box.length = 1 := by
  induction boxes with
  | nil => simp
  | cons b bs ih =>
    intro box hbox
    simp only [List.flatten_cons, List.length_append, List.length_cons] at hle
    have hb : 1 ≤ b.length := List.length_pos.mpr (hne b (by simp))
    have hbs := length_le_flatten_length bs (fun bx hbx => hne bx (by simp [hbx]))
    rcases List.mem_cons.mp hbox with rfl | h
    · omega
    · exact ih (fun bx hbx => hne bx (by simp [hbx])) (by omega) box h

/-- A singleton box is trivially RGB-constant. -/
theorem rgbconst_of_length_one (box : List Color) (h : box.length = 1) :
    RGBConst box := by
  rcases box with _ | ⟨c, _ | ⟨d, t⟩⟩
  · intro c hc; cases hc
  · intro x hx y hy
    simp only [List.mem_singleton] at hx hy
    subst hx; subst hy
    exact ⟨rfl, rfl, rfl⟩
  · simp at h

/-- Replacing box `idx` by a two-way split of its contents and appending
the second half at the back keeps the flattened multiset. -/
theorem flatten_set_append_perm (boxes : List (List Color)) (idx : ℕ)
    (hidx : idx < boxes.length) (u v : List Color)
    (huv : (u ++ v).Perm (boxes.getD idx [])) :
    ((boxes.set idx u) ++ [v]).flatten.Perm boxes.flatten := by
  induction boxes generalizing idx with
  | nil => simp at hidx
  | cons b bs ih =>
    cases idx with
    | zero =>
      simp only [List.getD_eq_getElem?_getD, List.getElem?_cons_zero,
        Option.getD_some] at huv
      simp only [List.set_cons_zero, List.cons_append, List.flatten_cons,
        List.flatten_append, List.flatten_cons, List.flatten_nil,
        List.append_nil]
      have h1 : (u ++ (bs.flatten ++ v)).Perm (u ++ (v ++ bs.flatten)) :=
        List.Perm.append_left u List.perm_append_comm
      have h2 : (u ++ (v ++ bs.flatten)) = (u ++ v) ++ bs.flatten := by
        rw [List.append_assoc]
      have h3 : ((u ++ v) ++ bs.flatten).Perm (b ++ bs.flatten) :=
        List.Perm.append_right bs.flatten huv
      exact (h1.trans (h2 ▸ List.Perm.refl _)).trans h3
    | succ k =>
      simp only [List.length_cons, Nat.succ_lt_succ_iff] at hidx
      simp only [List.getD_eq_getElem?_getD, List.getElem?_cons_succ] at huv
      simp only [List.set_cons_succ, List.cons_append, List.flatten_cons]
      exact List.Perm.append_left b
        (ih k hidx (by rw [List.getD_eq_getElem?_getD]; exact huv))

/-- Summing a channel over a box where every color has value `v`. -/
theorem map_const_sum (f : Color → ℕ) (box : List Color) (v : ℕ)
    (h : ∀ c ∈ box, f c = v) : (box.map f).sum = box.length * v := by
  induction box with
  | nil => simp
  | cons c cs ih =>
    simp only [List.map_cons, List.sum_cons, List.length_cons]
    rw [h c (by simp), ih (fun d hd => h d (by simp [hd]))]
    ring

/-- The average color of a nonempty RGB-constant box reproduces the RGB
channels of any member exactly (integer division of `n*v` by `n`). -/
theorem averageColor_const (box : List Color) (hne : box ≠ [])
    (hconst : RGBConst box) (c : Color) (hc : c ∈ box) :
    (averageColor box).r = c.r ∧ (averageColor box).g = c.g ∧
      (averageColor box).b = c.b := by
  have hlen : 0 < box.length := List.length_pos.mpr hne
  rw [averageColor, if_neg hne]
  refine ⟨?_, ?_, ?_⟩
  · show (box.map (fun c => c.r)).sum / box.length = c.r
    rw [map_const_sum (fun x => x.r) box c.r (fun d hd => (hconst d hd c hc).1),
      Nat.mul_div_cancel_left _ hlen]
  · show (box.map (fun c => c.g)).sum / box.length = c.g
    rw [map_const_sum (fun x => x.g) box c.g (fun d hd => (hconst d hd c hc).2.1),
      Nat.mul_div_cancel_left _ hlen]
  · show (box.map (fun c => c.b)).sum / box.length = c.b
    rw [map_const_sum (fun x => x.b) box c.b (fun d hd => (hconst d hd c hc).2.2),
      Nat.mul_div_cancel_left _ hlen]

/-- Matching RGB channels give squared distance zero. -/
theorem sqDist_self_components (c p : Color)
    (h : p.r = c.r ∧ p.g = c.g ∧ p.b = c.b) : sqDist c p = 0 := by
  rw [sqDist, h.1, h.2.1, h.2.2]
  ring

/-- Squared distances are nonnegative. -/
theorem sqDist_nonneg (c p : Color) : 0 ≤ sqDist c p := by
  rw [sqDist]
  have h1 := mul_self_nonneg ((c.r : ℤ) - p.r)
  have h2 := mul_self_nonneg ((c.g : ℤ) - p.g)
  have h3 := mul_self_nonneg ((c.b : ℤ) - p.b)
  linarith

/-- Squared distance zero forces the RGB channels to agree. -/
theorem sqDist_eq_zero (c p : Color) (h : sqDist c p = 0) :
    p.r = c.r ∧ p.g = c.g ∧ p.b = c.b := by
  rw [sqDist] at h
  have h1 : ((c.r : ℤ) - p.r) * ((c.r : ℤ) - p.r) = 0 := by
    nlinarith [mul_self_nonneg ((c.r : ℤ) - p.r), mul_self_nonneg ((c.g : ℤ) - p.g),
      mul_self_nonneg ((c.b : ℤ) - p.b)]
  have h2 : ((c.g : ℤ) - p.g) * ((c.g : ℤ) - p.g) = 0 := by
    nlinarith [mul_self_nonneg ((c.r : ℤ) - p.r), mul_self_nonneg ((c.g : ℤ) - p.g),
      mul_self_nonneg ((c.b : ℤ) - p.b)]
  have h3 : ((c.b : ℤ) - p.b) * ((c.b : ℤ) - p.b) = 0 := by
    nlinarith [mul_self_nonneg ((c.r : ℤ) - p.r), mul_self_nonneg ((c.g : ℤ) - p.g),
      mul_self_nonneg ((c.b : ℤ) - p.b)]
  have e1 := mul_self_eq_zero.mp h1
  have e2 := mul_self_eq_zero.mp h2
  have e3 := mul_self_eq_zero.mp h3
  refine ⟨?_, ?_, ?_⟩ <;> omega

/-- `pickLargest` is the full scan. -/
theorem pickLargest_eq_pickFold (boxes : List (List Color)) :
    pickLargest boxes = pickFold boxes boxes.length := rfl

/-- Scan invariant of the largest-range search: the running best is
nonnegative; it is 0 (never improved) or the range of a real index; and
it dominates every scanned range. -/
theorem pickFold_spec (boxes : List (List Color)) :
    ∀ n : ℕ,
      0 ≤ (pickFold boxes n).2 ∧
      ((pickFold boxes n).2 = 0 ∨
        ((pickFold boxes n).1 < n ∧
          totalRange (boxes.getD (pickFold boxes n).1 []) = (pickFold boxes n).2)) ∧
      ∀ i < n, totalRange (boxes.getD i []) ≤ (pickFold boxes n).2 := by
  intro n
  induction n with
  | zero =>
    refine ⟨le_refl 0, Or.inl rfl, ?_⟩
    intro i hi
    exact absurd hi (Nat.not_lt_zero i)
  | succ k ih =>
    have hstep : pickFold boxes (k + 1) =
        (if totalRange (boxes.getD k []) > (pickFold boxes k).2 then
          (k, totalRange (boxes.getD k []))
        else pickFold boxes k) := by
      rw [pickFold, List.range_succ, List.foldl_append]
      rfl
    obtain ⟨ih0, ih1, ih2⟩ := ih
    rw [hstep]
    by_cases hcond : totalRange (boxes.getD k []) > (pickFold boxes k).2
    · rw [if_pos hcond]
      refine ⟨le_trans ih0 hcond.le, Or.inr ⟨Nat.lt_succ_self k, rfl⟩, ?_⟩
      intro i hik
      rcases Nat.lt_succ_iff_lt_or_eq.mp hik with h | rfl
      · exact le_trans (ih2 i h) hcond.le
      · exact le_refl _
    · rw [if_neg hcond]
      refine ⟨ih0, ?_, ?_⟩
      · rcases ih1 with h | ⟨hlt, heq⟩
        · exact Or.inl h
        · exact Or.inr ⟨Nat.lt_succ_of_lt hlt, heq⟩
      · intro i hik
        rcases Nat.lt_succ_iff_lt_or_eq.mp hik with h | rfl
        · exact ih2 i h
        · exact not_lt.mp hcond

/-- The `pickLargest` facts used by the split loop. -/
theorem pickLargest_spec (boxes : List (List Color)) :
    0 ≤ (pickLargest boxes).2 ∧
    ((pickLargest boxes).2 = 0 ∨
      ((pickLargest boxes).1 < boxes.length ∧
        totalRange (boxes.getD (pickLargest boxes).1 []) = (pickLargest boxes).2)) ∧
    ∀ i < boxes.length, totalRange (boxes.getD i []) ≤ (pickLargest boxes).2 := by
  have h := pickFold_spec boxes boxes.length
  rwa [← pickLargest_eq_pickFold] at h

/-- A split adds exactly one box. -/
theorem splitStep_length (boxes : List (List Color)) :
    (splitStep boxes).length = boxes.length + 1 := by
  simp [splitStep]

/-- In-range `getD` values are members. -/
theorem getD_mem (boxes : List (List Color)) (i : ℕ) (hi : i < boxes.length) :
    boxes.getD i [] ∈ boxes := by
  rw [List.getD_eq_getElem?_getD, List.getElem?_eq_getElem hi, Option.getD_some]
  exact List.getElem_mem hi

/-- Provided the selected range is nonzero, a split keeps all boxes
nonempty and preserves the flattened multiset of colors. -/
theorem splitStep_spec (boxes : List (List Color))
    (hvalid : ∀ box ∈ boxes, ∀ c ∈ box, c.r ≤ 255 ∧ c.g ≤ 255 ∧ c.b ≤ 255)
    (hne : ∀ box ∈ boxes, box ≠ [])
    (hpick : (pickLargest boxes).2 ≠ 0) :
    (∀ box ∈ splitStep boxes, box ≠ []) ∧
    (splitStep boxes).flatten.Perm boxes.flatten := by
  obtain ⟨hnn, hloc, _⟩ := pickLargest_spec boxes
  rcases hloc with h0 | ⟨hidx, heq⟩
  · exact absurd h0 hpick
  have hpos : 0 < totalRange (boxes.getD (pickLargest boxes).1 []) := by
    rw [heq]
    exact lt_of_le_of_ne hnn (Ne.symm hpick)
  have hmem : boxes.getD (pickLargest boxes).1 [] ∈ boxes :=
    getD_mem _ _ hidx
  have h2 : 2 ≤ (boxes.getD (pickLargest boxes).1 []).length :=
    two_le_length_of_totalRange_pos _ (hvalid _ hmem) hpos
  have hslen : (sortBox (boxes.getD (pickLargest boxes).1 [])).length =
      (boxes.getD (pickLargest boxes).1 []).length := sortBox_length _
  constructor
  · intro bx hbx
    simp only [splitStep] at hbx
    rcases List.mem_append.mp hbx with hx | hx
    · rcases List.mem_or_eq_of_mem_set hx with hx2 | rfl
      · exact hne bx hx2
      · rw [← List.length_pos, List.length_take]
        omega
    · rw [List.mem_singleton] at hx
      subst hx
      rw [← List.length_pos, List.length_drop]
      omega
  · simp only [splitStep]
    exact flatten_set_append_perm boxes _ hidx _ _
      (by rw [List.take_append_drop]; exact sortBox_perm _)

/-- Master invariant of the split loop: starting from nonempty boxes that
partition the (valid, at most 256-pixel) image, the loop ends with
nonempty boxes that still partition the image, all of them RGB-constant —
either because the largest range hit zero, or because the box count hit
256, which with at most 256 pixels forces all boxes to be singletons. -/
theorem quantLoop_spec (img : List Color)
    (hvalidimg : ∀ c ∈ img, c.r ≤ 255 ∧ c.g ≤ 255 ∧ c.b ≤ 255)
    (hsmall : img.length ≤ 256) :
    ∀ (fuel : ℕ) (boxes : List (List Color)),
      (∀ box ∈ boxes, box ≠ []) →
      boxes.flatten.Perm img →
      256 ≤ fuel + boxes.length →
      (∀ box ∈ quantLoop fuel boxes, box ≠ []) ∧
      (quantLoop fuel boxes).flatten.Perm img ∧
      (∀ box ∈ quantLoop fuel boxes, RGBConst box) := by
  intro fuel
  induction fuel with
  | zero =>
    intro boxes hne hperm hfuel
    rw [quantLoop]
    refine ⟨hne, hperm, ?_⟩
    have hflen : boxes.flatten.length = img.length := hperm.length_eq
    have hsing := singleton_boxes boxes hne (by omega)
    intro box hbox
    exact rgbconst_of_length_one box (hsing box hbox)
  | succ k ih =>
    intro boxes hne hperm hfuel
    rw [quantLoop]
    by_cases hlen : boxes.length < 256
    · rw [if_pos hlen]
      by_cases hpick : (pickLargest boxes).2 = 0
      · rw [if_pos hpick]
        refine ⟨hne, hperm, ?_⟩
        intro box hbox
        obtain ⟨i, hi, hEq⟩ := List.getElem_of_mem hbox
        have hub := (pickLargest_spec boxes).2.2 i hi
        rw [hpick] at hub
        have hgd : boxes.getD i [] = box := by
          rw [List.getD_eq_getElem?_getD, List.getElem?_eq_getElem hi,
            Option.getD_some, hEq]
        rw [hgd] at hub
        exact rgbconst_of_totalRange_nonpos box hub
      · rw [if_neg hpick]
        have hvalidB : ∀ box ∈ boxes, ∀ c ∈ box,
            c.r ≤ 255 ∧ c.g ≤ 255 ∧ c.b ≤ 255 := by
          intro box hbox c hc
          exact hvalidimg c (hperm.mem_iff.mp (List.mem_flatten.mpr ⟨box, hbox, hc⟩))
        obtain ⟨hne2, hperm2⟩ := splitStep_spec boxes hvalidB hne hpick
        exact ih (splitStep boxes) hne2 (hperm2.trans hperm)
          (by rw [splitStep_length]; omega)
    · rw [if_neg hlen]
      refine ⟨hne, hperm, ?_⟩
      have hflen : boxes.flatten.length = img.length := hperm.length_eq
      have hsing := singleton_boxes boxes hne (by omega)
      intro box hbox
      exact rgbconst_of_length_one box (hsing box hbox)

/-- The loop never grows past 256 boxes when it starts at or below 256. -/
theorem quantLoop_length_le :
    ∀ (fuel : ℕ) (boxes : List (List Color)), boxes.length ≤ 256 →
      (quantLoop fuel boxes).length ≤ 256 := by
  intro fuel
  induction fuel with
  | zero =>
    intro boxes h
    rw [quantLoop]
    exact h
  | succ k ih =>
    intro boxes h
    rw [quantLoop]
    by_cases h1 : boxes.length < 256
    · rw [if_pos h1]
      by_cases h2 : (pickLargest boxes).2 = 0
      · rw [if_pos h2]; exact h
      · rw [if_neg h2]
        exact ih _ (by rw [splitStep_length]; omega)
    · rw [if_neg h1]
      exact h

/-- The final box count is at most 256. -/
theorem quantBoxes_length_le (img : List Color) :
    (quantBoxes img).length ≤ 256 :=
  quantLoop_length_le 255 [img] (by simp)

/-- The boxes of a small valid image: nonempty, a partition of the image,
and all RGB-constant. -/
theorem quantBoxes_spec (img : List Color)
    (hvalidimg : ∀ c ∈ img, c.r ≤ 255 ∧ c.g ≤ 255 ∧ c.b ≤ 255)
    (hne : img ≠ []) (hsmall : img.length ≤ 256) :
    (∀ box ∈ quantBoxes img, box ≠ []) ∧
    (quantBoxes img).flatten.Perm img ∧
    (∀ box ∈ quantBoxes img, RGBConst box) :=
  quantLoop_spec img hvalidimg hsmall 255 [img]
    (by intro box hbox; rw [List.mem_singleton] at hbox; rwa [hbox])
    (by simp)
    (by simp)

/-- Palette entries below the box count are the box averages. -/
theorem quantizePalette_getD (img : List Color) (i : ℕ)
    (hi : i < (quantBoxes img).length) :
    (quantizePalette img).getD i default =
      averageColor ((quantBoxes img).getD i []) := by
  have h256 : i < 256 := lt_of_lt_of_le hi (quantBoxes_length_le img)
  rw [quantizePalette, List.getD_eq_getElem?_getD, List.getElem?_map,
    List.getElem?_range h256]
  simp [hi]

/-- Scan invariant of the nearest-entry search: the running best is the
untouched sentinel or the distance of a real index, and it is a lower
bound of every scanned distance. -/
theorem nearestFold_spec (c : Color) (pal : List Color) :
    ∀ n : ℕ,
      ((nearestFold c pal n).2 = 2147483647 ∨
        ((nearestFold c pal n).1 < n ∧
          sqDist c (pal.getD (nearestFold c pal n).1 default) =
            (nearestFold c pal n).2)) ∧
      ∀ i < n, (nearestFold c pal n).2 ≤ sqDist c (pal.getD i default) := by
  intro n
  induction n with
  | zero =>
    refine ⟨Or.inl rfl, ?_⟩
    intro i hi
    exact absurd hi (Nat.not_lt_zero i)
  | succ k ih =>
    have hstep : nearestFold c pal (k + 1) =
        (if sqDist c (pal.getD k default) < (nearestFold c pal k).2 then
          (k, sqDist c (pal.getD k default))
        else nearestFold c pal k) := by
      rw [nearestFold, List.range_succ, List.foldl_append]
      rfl
    obtain ⟨ih1, ih2⟩ := ih
    rw [hstep]
    by_cases hcond : sqDist c (pal.getD k default) < (nearestFold c pal k).2
    · rw [if_pos hcond]
      refine ⟨Or.inr ⟨Nat.lt_succ_self k, rfl⟩, ?_⟩
      intro i hik
      rcases Nat.lt_succ_iff_lt_or_eq.mp hik with h | rfl
      · exact le_trans hcond.le (ih2 i h)
      · exact le_refl _
    · rw [if_neg hcond]
      refine ⟨?_, ?_⟩
      · rcases ih1 with h | ⟨hlt, heq⟩
        · exact Or.inl h
        · exact Or.inr ⟨Nat.lt_succ_of_lt hlt, heq⟩
      · intro i hik
        rcases Nat.lt_succ_iff_lt_or_eq.mp hik with h | rfl
        · exact ih2 i h
        · exact not_lt.mp hcond

/-- The core lossless fact: on a valid image of 2–256 pixels, looking any
of its colors up in the quantized palette lands on an entry with exactly
that color's RGB channels. -/
theorem quantizePalette_roundtrip (img : List Color)
    (hvalidimg : ∀ c ∈ img, c.r ≤ 255 ∧ c.g ≤ 255 ∧ c.b ≤ 255)
    (hne : img ≠ []) (hsmall : img.length ≤ 256) :
    ∀ c ∈ img,
      ((quantizePalette img).getD
          (findNearestPaletteIndex c (quantizePalette img)) default).r = c.r ∧
      ((quantizePalette img).getD
          (findNearestPaletteIndex c (quantizePalette img)) default).g = c.g ∧
      ((quantizePalette img).getD
          (findNearestPaletteIndex c (quantizePalette img)) default).b = c.b := by
  intro c hc
  obtain ⟨hneB, hperm, hconst⟩ := quantBoxes_spec img hvalidimg hne hsmall
  have hcf : c ∈ (quantBoxes img).flatten := hperm.mem_iff.mpr hc
  obtain ⟨box, hbox, hcbox⟩ := List.mem_flatten.mp hcf
  obtain ⟨i, hi, hEq⟩ := List.getElem_of_mem hbox
  have hgd : (quantBoxes img).getD i [] = box := by
    rw [List.getD_eq_getElem?_getD, List.getElem?_eq_getElem hi,
      Option.getD_some, hEq]
  have hpal : (quantizePalette img).getD i default = averageColor box := by
    rw [quantizePalette_getD img i hi, hgd]
  have havg := averageColor_const box (hneB box hbox) (hconst box hbox) c hcbox
  have hd0 : sqDist c ((quantizePalette img).getD i default) = 0 := by
    rw [hpal]
    exact sqDist_self_components c _ havg
  obtain ⟨hloc, hub⟩ := nearestFold_spec c (quantizePalette img) 256
  have hle : (nearestFold c (quantizePalette img) 256).2 ≤ 0 := by
    rw [← hd0]
    exact hub i (lt_of_lt_of_le hi (quantBoxes_length_le img))
  rcases hloc with h | ⟨_, heq⟩
  · rw [h] at hle
    norm_num at hle
  · have hzero :
        sqDist c ((quantizePalette img).getD
          (nearestFold c (quantizePalette img) 256).1 default) = 0 :=
      le_antisymm (heq ▸ hle) (sqDist_nonneg c _)
    have h := sqDist_eq_zero c _ hzero
    exact ⟨h.1, h.2.1, h.2.2⟩

/-- `markPixelsDirty` does not touch the palette. -/
theorem markPixelsDirty_palette (b : IndexedPixelBuffer) :
    (markPixelsDirty b).palette = b.palette := rfl

/-- Folds whose steps keep the palette keep the palette. -/
theorem foldl_preserves_palette {α : Type}
    (f : IndexedPixelBuffer → α → IndexedPixelBuffer)
    (hf : ∀ acc x, (f acc x).palette = acc.palette) :
    ∀ (l : List α) (acc : IndexedPixelBuffer),
      (l.foldl f acc).palette = acc.palette := by
  intro l
  induction l with
  | nil => intro acc; rfl
  | cons x xs ih =>
    intro acc
    rw [List.foldl_cons, ih, hf]

/-- With `fitPalette` set and a multi-pixel image, `loadFromColors`
installs exactly the quantized palette (the pixel-writing loop touches
only the pixel array). -/
theorem loadFromColors_palette (b : IndexedPixelBuffer) (w h : ℕ)
    (img : List Color) (destX destY : ℤ) (hfit : 1 < w * h) :
    (loadFromColors b w h img destX destY true).palette =
      quantizePalette img := by
  rw [loadFromColors]
  rw [if_pos (show (true : Bool) = true ∧ 1 < w * h from ⟨rfl, hfit⟩),
    if_pos (show (true : Bool) = true ∧ 1 < w * h from ⟨rfl, hfit⟩)]
  rw [markPixelsDirty_palette]
  rw [foldl_preserves_palette _ ?_ _ _]
  · rfl
  · intro acc y
    exact foldl_preserves_palette _ (by intro acc2 x; dsimp only; split <;> rfl) _ acc

/-- C2, amended: for the `loadFromFile` code path with `fitPalette`
enabled, an image of more than one and at most 256 pixels in total (hence
at most 256 unique colors) quantizes losslessly: the buffer receives the
quantized palette, and mapping any pixel color through the nearest-color
lookup lands on a palette entry with that exact RGB value. -/
theorem quantize_roundtrip_small (b : IndexedPixelBuffer) (w h : ℕ)
    (img : List Color) (destX destY : ℤ)
    (hlen : img.length = w * h) (hgt1 : 1 < w * h) (hle : w * h ≤ 256)
    (hvalidimg : ∀ c ∈ img, c.r ≤ 255 ∧ c.g ≤ 255 ∧ c.b ≤ 255) :
    (loadFromColors b w h img destX destY true).palette = quantizePalette img ∧
    ∀ c ∈ img,
      ((quantizePalette img).getD
          (findNearestPaletteIndex c (quantizePalette img)) default).r = c.r ∧
      ((quantizePalette img).getD
          (findNearestPaletteIndex c (quantizePalette img)) default).g = c.g ∧
      ((quantizePalette img).getD
          (findNearestPaletteIndex c (quantizePalette img)) default).b = c.b :=
  ⟨loadFromColors_palette b w h img destX destY hgt1,
    quantizePalette_roundtrip img hvalidimg
      (by apply List.length_pos.mp; omega) (by omega)⟩

/-- Witness for the amended C2: a two-pixel red/blue image round-trips
both of its colors exactly. -/
theorem quantize_roundtrip_small_witness :
    (loadFromColors (mkIndexedPixelBuffer 2 2) 2 1
        [⟨255, 0, 0, 255⟩, ⟨0, 0, 255, 255⟩] 0 0 true).palette =
      quantizePalette [⟨255, 0, 0, 255⟩, ⟨0, 0, 255, 255⟩] ∧
    ∀ c ∈ ([⟨255, 0, 0, 255⟩, ⟨0, 0, 255, 255⟩] : List Color),
      ((quantizePalette [⟨255, 0, 0, 255⟩, ⟨0, 0, 255, 255⟩]).getD
          (findNearestPaletteIndex c
            (quantizePalette [⟨255, 0, 0, 255⟩, ⟨0, 0, 255, 255⟩]))
          default).r = c.r ∧
      ((quantizePalette [⟨255, 0, 0, 255⟩, ⟨0, 0, 255, 255⟩]).getD
          (findNearestPaletteIndex c
            (quantizePalette [⟨255, 0, 0, 255⟩, ⟨0, 0, 255, 255⟩]))
          default).g = c.g ∧
      ((quantizePalette [⟨255, 0, 0, 255⟩, ⟨0, 0, 255, 255⟩]).getD
          (findNearestPaletteIndex c
            (quantizePalette [⟨255, 0, 0, 255⟩, ⟨0, 0, 255, 255⟩]))
          default).b = c.b :=
  quantize_roundtrip_small (mkIndexedPixelBuffer 2 2) 2 1
    [⟨255, 0, 0, 255⟩, ⟨0, 0, 255, 255⟩] 0 0 (by decide) (by decide) (by decide)
    (by decide)

set_option maxRecDepth 10000 in
/-- C2, counterexample: a single-pixel image takes the code path that
skips quantization entirely (`imageColors.size() > 1` fails), so its one
color is matched against the buffer's pre-existing grayscale palette and
the round trip returns `(80,80,80)`, not `(10,200,30)`. -/
theorem quantize_roundtrip_counterexample :
    ¬(((loadFromColors (mkIndexedPixelBuffer 4 4) 1 1 [⟨10, 200, 30, 255⟩]
          0 0 true).palette.getD
        (findNearestPaletteIndex ⟨10, 200, 30, 255⟩
          (loadFromColors (mkIndexedPixelBuffer 4 4) 1 1 [⟨10, 200, 30, 255⟩]
            0 0 true).palette)
        default).r = 10 ∧
      ((loadFromColors (mkIndexedPixelBuffer 4 4) 1 1 [⟨10, 200, 30, 255⟩]
          0 0 true).palette.getD
        (findNearestPaletteIndex ⟨10, 200, 30, 255⟩
          (loadFromColors (mkIndexedPixelBuffer 4 4) 1 1 [⟨10, 200, 30, 255⟩]
            0 0 true).palette)
        default).g = 200 ∧
      ((loadFromColors (mkIndexedPixelBuffer 4 4) 1 1 [⟨10, 200, 30, 255⟩]
          0 0 true).palette.getD
        (findNearestPaletteIndex ⟨10, 200, 30, 255⟩
          (loadFromColors (mkIndexedPixelBuffer 4 4) 1 1 [⟨10, 200, 30, 255⟩]
            0 0 true).palette)
        default).b = 30) := by
  decide

end Engine
